import Mathlib

/-!
Shallow embedding of `nfsstats.go` (package `nfsstats`), a line-oriented
parser for the Linux `/proc/[pid]/mountstats` format, `statvers=1.1` only.

The input stream is modelled as a list of lines together with a flag
`readErr` telling whether the underlying reader fails after the last line
(a `bufio.Scanner` surfaces such a failure through `scanner.Err()` once
`Scan` has returned `false`).  Go slice indexing that can go out of range
is modelled explicitly: an unchecked access raises `RuntimeFault`.
Machine integers are `Nat` with the `2^64` bound applied exactly where the
Go code applies it (`strconv.ParseUint` with bit size 64).
-/

set_option maxHeartbeats 1000000

namespace Nfsstats

/-- Runtime failure of the Go program: an out-of-range slice index. -/
inductive RuntimeFault
  | indexOutOfRange
deriving DecidableEq

deriving instance DecidableEq for Except

/-- Whitespace tokenizer: maximal runs of non-whitespace characters, no
empty tokens, accumulator holds the current token reversed. -/
def splitWs : List Char → List Char → List String
  | [], acc => if acc.isEmpty then [] else [String.mk acc.reverse]
  | c :: cs, acc =>
    if c.isWhitespace then
      (if acc.isEmpty then [] else [String.mk acc.reverse]) ++ splitWs cs []
    else splitWs cs (c :: acc)

/-- Go `strings.Fields`: split a line around whitespace. -/
def strFields (s : String) : List String := splitWs s.data []

/-- Numeric value of a decimal digit string, most significant digit first. -/
def digitsToNat (s : String) : Nat :=
  s.data.foldl (fun n c => n * 10 + (c.toNat - 48)) 0

/-- Syntactic validity for Go `strconv.ParseUint(s, 10, 64)`: nonempty and
all ASCII decimal digits (base 10 admits no sign, prefix or underscore). -/
def isUintToken (s : String) : Bool :=
  !s.data.isEmpty && s.data.all (fun c => c.isDigit)

/-- Go `val, _ := strconv.ParseUint(s, 10, 64)`, the error discarded:
0 on a syntax error, the maximum uint64 value on range overflow. -/
def parseUint64 (s : String) : Nat :=
  if isUintToken s then min (digitsToNat s) (2 ^ 64 - 1) else 0

/-- Go `makeUint64`: re-cast every token of the slice to uint64. -/
def makeUint64 (fields : List String) : List Nat :=
  fields.map parseUint64

/-- Byte counters (linux nfs_stat_bytecounters), 8 uint64 fields. -/
structure ByteCounters where
  NormalReadBytes : Nat
  NormalWriteBytes : Nat
  DirectReadBytes : Nat
  DirectWriteBytes : Nat
  ServerReadBytes : Nat
  ServerWriteBytes : Nat
  ReadPages : Nat
  WritePages : Nat
deriving DecidableEq

/-- Event counters (linux nfs_stat_eventcounters), 27 uint64 fields. -/
structure EventCounters where
  InodeRevalidate : Nat
  DentryRevalidate : Nat
  DataInvalidate : Nat
  AttrInvalidate : Nat
  VFSOpen : Nat
  VFSLookup : Nat
  VFSAccess : Nat
  VFSUpdatePage : Nat
  VFSReadPage : Nat
  VFSReadPages : Nat
  VFSWritePage : Nat
  VFSWritePages : Nat
  VFSGetDents : Nat
  VFSSetAttr : Nat
  VFSFlush : Nat
  VFSSync : Nat
  VFSLock : Nat
  VFSRelease : Nat
  CongestionWait : Nat
  SetAttrTrunc : Nat
  ExtendWrite : Nat
  SillyRename : Nat
  ShortRead : Nat
  ShortWrite : Nat
  Delay : Nat
  PNFSRead : Nat
  PNFSWrite : Nat
deriving DecidableEq

/-- Per-operation counters (linux rpc_count_iostats_metrics), 8 uint64 fields. -/
structure OperationCounters where
  Requests : Nat
  Transmissions : Nat
  Timeouts : Nat
  BytesSent : Nat
  BytesReceived : Nat
  TotalQueueTime : Nat
  TotalResponseTime : Nat
  TotalExecutionTime : Nat
deriving DecidableEq

/-- Transport counters (linux xs_tcp_print_stats), 13 uint64 fields. -/
structure TransportCounters where
  SourcePort : Nat
  BindCount : Nat
  ConnectCount : Nat
  ConnectTime : Nat
  IdleTime : Nat
  RPCSends : Nat
  RPCReceives : Nat
  BadTransactionIDs : Nat
  RequestUtilization : Nat
  BacklogUtilization : Nat
  MaxSlotsUsed : Nat
  SendingQueueUtilization : Nat
  PendingQueueUtilization : Nat
deriving DecidableEq

/-- NFS statistics wrapper.  The Go `Operation` field is a map from
operation name to counters; a Go map may be nil, so it is modelled as an
`Option` around an association list with unique keys. -/
structure Statistics where
  Age : Nat
  Byte : ByteCounters
  Event : EventCounters
  Operation : Option (List (String × OperationCounters))
  Transport : TransportCounters
deriving DecidableEq

/-- Full NFS mount object.  `Statistics` is a pointer in Go, nil until
`Parse` fills it in, hence an `Option`. -/
structure NFSMount where
  Device : String
  Mountpoint : String
  Statistics : Option Statistics
  Version : Nat
deriving DecidableEq

def ByteCounters.zero : ByteCounters := ⟨0, 0, 0, 0, 0, 0, 0, 0⟩

def EventCounters.zero : EventCounters :=
  ⟨0, 0, 0, 0, 0, 0, 0, 0, 0, 0, 0, 0, 0, 0, 0, 0, 0, 0, 0, 0, 0, 0, 0, 0, 0, 0, 0⟩

def TransportCounters.zero : TransportCounters :=
  ⟨0, 0, 0, 0, 0, 0, 0, 0, 0, 0, 0, 0, 0⟩

/-- Go `NewStatistics`: the zero-valued statistics with the operation map
allocated (`make`), i.e. `some []` rather than `none`. -/
def NewStatistics : Statistics :=
  ⟨0, ByteCounters.zero, EventCounters.zero, some [], TransportCounters.zero⟩

/-- Go map assignment `m[k] = v` on the association-list model: overwrite
the entry whose key is `k` when present, append otherwise. -/
def mapInsert (m : List (String × OperationCounters)) (k : String)
    (v : OperationCounters) : List (String × OperationCounters) :=
  if m.any (fun p => p.1 == k) then
    m.map (fun p => if p.1 == k then (k, v) else p)
  else m ++ [(k, v)]

/-- Go map read `m[k]` on the association-list model. -/
def mapLookup (m : List (String × OperationCounters)) (k : String) :
    Option OperationCounters :=
  (m.find? (fun p => p.1 == k)).map Prod.snd

/-- Go `strings.TrimSuffix(s, ":")`: drop one trailing colon if present. -/
def trimSuffixColon (s : String) : String :=
  match s.data.getLast? with
  | some ':' => String.mk s.data.dropLast
  | _ => s

/-- Positional construction of `OperationCounters` from `elements[0..7]`;
the caller has checked the slice length, so `getD` defaults never fire. -/
def mkOperationCounters (e : List Nat) : OperationCounters :=
  ⟨e.getD 0 0, e.getD 1 0, e.getD 2 0, e.getD 3 0,
   e.getD 4 0, e.getD 5 0, e.getD 6 0, e.getD 7 0⟩

/-- Positional construction of `ByteCounters` from `elements[0..7]`. -/
def mkByteCounters (e : List Nat) : ByteCounters :=
  ⟨e.getD 0 0, e.getD 1 0, e.getD 2 0, e.getD 3 0,
   e.getD 4 0, e.getD 5 0, e.getD 6 0, e.getD 7 0⟩

/-- Positional construction of `EventCounters` from `elements[0..26]`. -/
def mkEventCounters (e : List Nat) : EventCounters :=
  ⟨e.getD 0 0, e.getD 1 0, e.getD 2 0, e.getD 3 0, e.getD 4 0,
   e.getD 5 0, e.getD 6 0, e.getD 7 0, e.getD 8 0, e.getD 9 0,
   e.getD 10 0, e.getD 11 0, e.getD 12 0, e.getD 13 0, e.getD 14 0,
   e.getD 15 0, e.getD 16 0, e.getD 17 0, e.getD 18 0, e.getD 19 0,
   e.getD 20 0, e.getD 21 0, e.getD 22 0, e.getD 23 0, e.getD 24 0,
   e.getD 25 0, e.getD 26 0⟩

/-- Positional construction of `TransportCounters` from `elements[0..12]`. -/
def mkTransportCounters (e : List Nat) : TransportCounters :=
  ⟨e.getD 0 0, e.getD 1 0, e.getD 2 0, e.getD 3 0, e.getD 4 0,
   e.getD 5 0, e.getD 6 0, e.getD 7 0, e.getD 8 0, e.getD 9 0,
   e.getD 10 0, e.getD 11 0, e.getD 12 0⟩

/-- Go `parseOperations`: consume lines until a blank line or a line whose
first token is `device` (that line is consumed by `scanner.Scan` before the
`break`), or end of input.  Result: remaining lines, whether `Scan`
returned false (end of input reached), and the updated statistics.
Writing to a nil Go map cannot happen here: the parser only ever inserts
into the map allocated by `NewStatistics`, hence the `Option.map`. -/
def parseOperations : List String → Statistics → List String × Bool × Statistics
  | [], st => ([], true, st)
  | l :: rest, st =>
    let fields := strFields l
    if fields.length = 0 ∨ fields.getD 0 "" = "device" then
      (rest, false, st)
    else if fields.length ≠ 9 then
      parseOperations rest st
    else
      let opName := trimSuffixColon (fields.getD 0 "")
      let elements := makeUint64 (fields.drop 1)
      parseOperations rest
        { st with Operation :=
            st.Operation.map (fun m => mapInsert m opName (mkOperationCounters elements)) }

/-- Statistics-block loop of Go `parseStatistics`: consume lines until a
blank line, a `per-op` marker, or end of input, dispatching on the first
token.  The `age:` and `xprt:` cases read `fields[1]` without a length
check, so a one-token line there is an out-of-range access.  Result as in
`parseOperations`: remaining lines, whether end of input was reached, and
the statistics. -/
def parseStatisticsLoop : List String → Statistics →
    Except RuntimeFault (List String × Bool × Statistics)
  | [], st => .ok ([], true, st)
  | l :: rest, st =>
    let fields := strFields l
    if fields.length = 0 then .ok (rest, false, st)
    else if fields.getD 0 "" = "per-op" then .ok (rest, false, st)
    else if fields.getD 0 "" = "age:" then
      if 2 ≤ fields.length then
        parseStatisticsLoop rest { st with Age := parseUint64 (fields.getD 1 "") }
      else .error .indexOutOfRange
    else if fields.getD 0 "" = "bytes:" then
      if fields.length ≠ 9 then parseStatisticsLoop rest st
      else
        parseStatisticsLoop rest
          { st with Byte := mkByteCounters (makeUint64 (fields.drop 1)) }
    else if fields.getD 0 "" = "events:" then
      if fields.length ≠ 28 then parseStatisticsLoop rest st
      else
        parseStatisticsLoop rest
          { st with Event := mkEventCounters (makeUint64 (fields.drop 1)) }
    else if fields.getD 0 "" = "xprt:" then
      if 2 ≤ fields.length then
        if fields.getD 1 "" ≠ "tcp" then parseStatisticsLoop rest st
        else if fields.length ≠ 15 then parseStatisticsLoop rest st
        else
          parseStatisticsLoop rest
            { st with Transport := mkTransportCounters (makeUint64 (fields.drop 2)) }
      else .error .indexOutOfRange
    else parseStatisticsLoop rest st

/-- Go `parseStatistics`: run the block loop from `NewStatistics`, then
`parseOperations`, then check `scanner.Err()` — non-nil exactly when some
`Scan` call has returned false (end of input reached) and the underlying
reader failed.  `.ok none` models Go's `return nil, err`. -/
def parseStatistics (readErr : Bool) (lines : List String) :
    Except RuntimeFault (Option (List String × Statistics)) :=
  match parseStatisticsLoop lines NewStatistics with
  | .error e => .error e
  | .ok (rest, hitEnd, st) =>
    let r2 := parseOperations rest st
    if (hitEnd || r2.2.1) && readErr then .ok none
    else .ok (some (r2.1, r2.2.2))

/-- Result of Go `Parse`: a runtime fault, or the mount list together with
the error flag (`scanner.Err()` / the error propagated from
`parseStatistics`). -/
inductive ParseResult
  | fault (e : RuntimeFault)
  | ok (mounts : List NFSMount) (streamErr : Bool)
deriving DecidableEq

/-- Top-level loop of Go `Parse`, with explicit fuel.  Each iteration
consumes at least one line, so fuel equal to the number of lines is enough;
`ParseAux_fuel` below proves the result does not depend on the fuel once it
is at least the number of lines.  On Go's `return nil, err` the assembled
mounts are dropped (`.ok [] true`). -/
def ParseAux (readErr : Bool) : Nat → List String → List NFSMount → ParseResult
  | 0, _, acc => .ok acc readErr
  | fuel + 1, lines, acc =>
    match lines with
    | [] => .ok acc readErr
    | l :: rest =>
      let fields := strFields l
      if fields.length = 0 then ParseAux readErr fuel rest acc
      else if fields.getD 0 "" = "device" then
        if fields.length ≠ 9 then ParseAux readErr fuel rest acc
        else if fields.getD 7 "" ≠ "nfs" ∧ fields.getD 7 "" ≠ "nfs4" then
          ParseAux readErr fuel rest acc
        else if fields.getD 8 "" ≠ "statvers=1.1" then ParseAux readErr fuel rest acc
        else
          let nfsVersion : Nat := if fields.getD 7 "" = "nfs4" then 4 else 3
          match parseStatistics readErr rest with
          | .error e => .fault e
          | .ok none => .ok [] true
          | .ok (some (rest2, stats)) =>
            ParseAux readErr fuel rest2
              (acc ++ [⟨fields.getD 1 "", fields.getD 4 "", some stats, nfsVersion⟩])
      else ParseAux readErr fuel rest acc

/-- Go `Parse`: scan the lines of the stream for mount headers and collect
the NFS mounts. -/
def Parse (readErr : Bool) (lines : List String) : ParseResult :=
  ParseAux readErr lines.length lines []

/-- Number of mount records of a parse result (0 on a runtime fault). -/
def ParseResult.mountCount : ParseResult → Nat
  | .ok ms _ => ms.length
  | .fault _ => 0

/-- Specification-level mount-header predicate: exactly 9 whitespace
tokens, token 0 is `device`, token 7 is `nfs` or `nfs4`, token 8 is
`statvers=1.1`. -/
def isMountHeader (fs : List String) : Prop :=
  fs.length = 9 ∧ fs.getD 0 "" = "device" ∧
    (fs.getD 7 "" = "nfs" ∨ fs.getD 7 "" = "nfs4") ∧ fs.getD 8 "" = "statvers=1.1"

instance (fs : List String) : Decidable (isMountHeader fs) := by
  unfold isMountHeader; infer_instance

/-- Specification-level record produced for a matching header: version 4
for `nfs4` and 3 otherwise, device token 1, mountpoint token 4, with the
freshly allocated statistics. -/
def headerMount (fs : List String) : NFSMount :=
  ⟨fs.getD 1 "", fs.getD 4 "", some NewStatistics,
    if fs.getD 7 "" = "nfs4" then 4 else 3⟩

/-- Specification-level boundary of the per-operation table: a blank line
or a line whose first token is `device`. -/
def isOpBoundary (l : String) : Bool :=
  decide ((strFields l).length = 0 ∨ (strFields l).getD 0 "" = "device")

/-- Lines of the per-operation table: the longest prefix without a
boundary line. -/
def opTableLines (lines : List String) : List String :=
  lines.takeWhile (fun l => !isOpBoundary l)

/-- Specification-level reading of one operation line: defined only for
exactly 9 tokens; name is token 0 with a trailing colon stripped, counters
are tokens 1..8. -/
def opEntryOfLine (l : String) : Option (String × OperationCounters) :=
  let fs := strFields l
  if fs.length = 9 then
    some (trimSuffixColon (fs.getD 0 ""), mkOperationCounters (makeUint64 (fs.drop 1)))
  else none

/-- Specification-level answer for one operation name: the counters of the
last valid operation line of the table carrying that name. -/
def lastOpEntry (lines : List String) (name : String) : Option OperationCounters :=
  ((((opTableLines lines).filterMap opEntryOfLine).filter
      (fun p => p.1 == name)).getLast?).map Prod.snd

/-- Accumulated effect of the per-operation table on an operation map. -/
def opInserts (lines : List String) (m : List (String × OperationCounters)) :
    List (String × OperationCounters) :=
  ((opTableLines lines).filterMap opEntryOfLine).foldl
    (fun acc p => mapInsert acc p.1 p.2) m

/-- Invariant claimed for every produced mount: statistics present, its
operation map allocated, and version 3 or 4. -/
def mountWellFormed (m : NFSMount) : Prop :=
  (∃ st, m.Statistics = some st ∧ ∃ om, st.Operation = some om) ∧
    (m.Version = 3 ∨ m.Version = 4)

/-- Sample statvers=1.1 mount header. -/
def hdr1 : String :=
  "device 192.168.1.1:/export mounted on /mnt with fstype nfs statvers=1.1"

/-- Second sample statvers=1.1 mount header. -/
def hdr2 : String :=
  "device 192.168.1.2:/export2 mounted on /mnt2 with fstype nfs statvers=1.1"

/-- Input in which a second valid mount header immediately follows the
first mount's per-operation table, with no intervening blank line — the
layout `/proc/[pid]/mountstats` itself uses for consecutive NFS mounts. -/
def consecutiveMounts : List String :=
  [hdr1, "per-op statistics", "READ: 1 1 0 0 0 0 0 0", hdr2]

/-! Basic lemmas: the loops only move forward through the line stream, and
the fuel given to `ParseAux` by `Parse` is enough, so the fuel is an
artifact of the embedding and not a semantic bound. -/

theorem parseOperations_rest_length (ls : List String) (st : Statistics) :
    (parseOperations ls st).1.length ≤ ls.length := by
  induction ls generalizing st with
  | nil => simp [parseOperations]
  | cons l rest ih =>
    simp only [parseOperations]
    split
    · simp
    · split
      · exact le_trans (ih st) (Nat.le_succ _)
      · exact le_trans (ih _) (Nat.le_succ _)

theorem parseStatisticsLoop_rest_length (ls : List String) (st : Statistics)
    (r : List String) (b : Bool) (s' : Statistics)
    (h : parseStatisticsLoop ls st = .ok (r, b, s')) : r.length ≤ ls.length := by
  induction ls generalizing st with
  | nil =>
    simp only [parseStatisticsLoop, Except.ok.injEq, Prod.mk.injEq] at h
    simp [← h.1]
  | cons l rest ih =>
    simp only [parseStatisticsLoop] at h
    split at h
    · simp only [Except.ok.injEq, Prod.mk.injEq] at h
      simp [← h.1, Nat.le_succ]
    · split at h
      · simp only [Except.ok.injEq, Prod.mk.injEq] at h
        simp [← h.1, Nat.le_succ]
      · split at h
        · split at h
          · exact le_trans (ih _ h) (Nat.le_succ _)
          · exact absurd h (by simp)
        · split at h
          · split at h
            · exact le_trans (ih _ h) (Nat.le_succ _)
            · exact le_trans (ih _ h) (Nat.le_succ _)
          · split at h
            · split at h
              · exact le_trans (ih _ h) (Nat.le_succ _)
              · exact le_trans (ih _ h) (Nat.le_succ _)
            · split at h
              · split at h
                · split at h
                  · exact le_trans (ih _ h) (Nat.le_succ _)
                  · split at h
                    · exact le_trans (ih _ h) (Nat.le_succ _)
                    · exact le_trans (ih _ h) (Nat.le_succ _)
                · exact absurd h (by simp)
              · exact le_trans (ih _ h) (Nat.le_succ _)

theorem parseStatistics_rest_length (readErr : Bool) (ls : List String)
    (r : List String) (st : Statistics)
    (h : parseStatistics readErr ls = .ok (some (r, st))) : r.length ≤ ls.length := by
  unfold parseStatistics at h
  split at h
  · exact absurd h (by simp)
  · rename_i rest hitEnd s1 heq
    dsimp only at h
    split at h
    · exact absurd h (by simp)
    · simp only [Except.ok.injEq, Option.some.injEq, Prod.mk.injEq] at h
      have h1 : r.length ≤ rest.length := by
        rw [← h.1]
        exact parseOperations_rest_length rest s1
      exact le_trans h1 (parseStatisticsLoop_rest_length ls NewStatistics rest hitEnd s1 heq)

theorem ParseAux_fuel (readErr : Bool) : ∀ (fuel : Nat) (lines : List String)
    (acc : List NFSMount), lines.length ≤ fuel →
    ParseAux readErr fuel lines acc = ParseAux readErr lines.length lines acc := by
  intro fuel
  induction fuel using Nat.strong_induction_on with
  | _ fuel ih =>
  intro lines acc hle
  cases lines with
  | nil => cases fuel <;> rfl
  | cons l rest =>
    cases fuel with
    | zero => simp at hle
    | succ fuel =>
      have hrest : rest.length ≤ fuel := by simpa using hle
      simp only [List.length_cons, ParseAux]
      by_cases h0 : (strFields l).length = 0
      · simp only [if_pos h0]
        rw [ih fuel (by omega) rest acc hrest, ih rest.length (by omega) rest acc le_rfl]
      · simp only [if_neg h0]
        by_cases hd : (strFields l).getD 0 "" = "device"
        · simp only [if_pos hd]
          by_cases h9 : (strFields l).length ≠ 9
          · simp only [if_pos h9]
            rw [ih fuel (by omega) rest acc hrest, ih rest.length (by omega) rest acc le_rfl]
          · simp only [if_neg h9]
            by_cases h7 : (strFields l).getD 7 "" ≠ "nfs" ∧ (strFields l).getD 7 "" ≠ "nfs4"
            · simp only [if_pos h7]
              rw [ih fuel (by omega) rest acc hrest,
                  ih rest.length (by omega) rest acc le_rfl]
            · simp only [if_neg h7]
              by_cases h8 : (strFields l).getD 8 "" ≠ "statvers=1.1"
              · simp only [if_pos h8]
                rw [ih fuel (by omega) rest acc hrest,
                    ih rest.length (by omega) rest acc le_rfl]
              · simp only [if_neg h8]
                cases hps : parseStatistics readErr rest with
                | error e => simp only [hps]
                | ok o =>
                  cases o with
                  | none => simp only [hps]
                  | some pr =>
                    obtain ⟨rest2, stats⟩ := pr
                    have h2 : rest2.length ≤ rest.length :=
                      parseStatistics_rest_length readErr rest rest2 stats hps
                    simp only [hps]
                    rw [ih fuel (by omega) rest2 _ (le_trans h2 hrest),
                        ih rest.length (by omega) rest2 _ h2]
        · simp only [if_neg hd]
          rw [ih fuel (by omega) rest acc hrest, ih rest.length (by omega) rest acc le_rfl]

theorem length_ne_zero_of_getD (fs : List String) (s : String)
    (h : fs.getD 0 "" = s) (hs : s ≠ "") : fs.length ≠ 0 := by
  cases fs with
  | nil => exact absurd h.symm (by simpa using hs)
  | cons a tl => simp

/-! Frame lemmas for the statistics-block loop and the operations parser:
which fields each of them can touch. -/

theorem parseStatisticsLoop_effects : ∀ (ls : List String) (st : Statistics)
    (r : List String) (b : Bool) (s' : Statistics),
    parseStatisticsLoop ls st = .ok (r, b, s') →
    s'.Operation = st.Operation ∧
    ((∀ l ∈ ls, ¬ ((strFields l).getD 0 "" = "bytes:" ∧ (strFields l).length = 9)) →
      s'.Byte = st.Byte) ∧
    ((∀ l ∈ ls, ¬ ((strFields l).getD 0 "" = "xprt:" ∧ (strFields l).getD 1 "" = "tcp" ∧
        (strFields l).length = 15)) → s'.Transport = st.Transport) := by
  intro ls
  induction ls with
  | nil =>
    intro st r b s' h
    simp only [parseStatisticsLoop, Except.ok.injEq, Prod.mk.injEq] at h
    rw [← h.2.2]
    exact ⟨rfl, fun _ => rfl, fun _ => rfl⟩
  | cons l rest ih =>
    intro st r b s' h
    have hmem : ∀ (P : String → Prop), (∀ x ∈ l :: rest, P x) → ∀ x ∈ rest, P x :=
      fun P hp x hx => hp x (List.mem_cons_of_mem _ hx)
    simp only [parseStatisticsLoop] at h
    by_cases h0 : (strFields l).length = 0
    · rw [if_pos h0] at h
      simp only [Except.ok.injEq, Prod.mk.injEq] at h
      rw [← h.2.2]
      exact ⟨rfl, fun _ => rfl, fun _ => rfl⟩
    · rw [if_neg h0] at h
      by_cases hper : (strFields l).getD 0 "" = "per-op"
      · rw [if_pos hper] at h
        simp only [Except.ok.injEq, Prod.mk.injEq] at h
        rw [← h.2.2]
        exact ⟨rfl, fun _ => rfl, fun _ => rfl⟩
      · rw [if_neg hper] at h
        by_cases hage : (strFields l).getD 0 "" = "age:"
        · rw [if_pos hage] at h
          by_cases hlen2 : 2 ≤ (strFields l).length
          · rw [if_pos hlen2] at h
            obtain ⟨ho, hb, ht⟩ := ih _ _ _ _ h
            exact ⟨ho, fun hn => hb (hmem _ hn), fun hn => ht (hmem _ hn)⟩
          · rw [if_neg hlen2] at h
            exact absurd h (by simp)
        · rw [if_neg hage] at h
          by_cases hby : (strFields l).getD 0 "" = "bytes:"
          · rw [if_pos hby] at h
            by_cases h9 : (strFields l).length ≠ 9
            · rw [if_pos h9] at h
              obtain ⟨ho, hb, ht⟩ := ih _ _ _ _ h
              exact ⟨ho, fun hn => hb (hmem _ hn), fun hn => ht (hmem _ hn)⟩
            · rw [if_neg h9] at h
              obtain ⟨ho, hb, ht⟩ := ih _ _ _ _ h
              refine ⟨ho, fun hn => ?_, fun hn => ht (hmem _ hn)⟩
              exact absurd ⟨hby, by omega⟩ (hn l (List.mem_cons_self _ _))
          · rw [if_neg hby] at h
            by_cases hev : (strFields l).getD 0 "" = "events:"
            · rw [if_pos hev] at h
              by_cases h28 : (strFields l).length ≠ 28
              · rw [if_pos h28] at h
                obtain ⟨ho, hb, ht⟩ := ih _ _ _ _ h
                exact ⟨ho, fun hn => hb (hmem _ hn), fun hn => ht (hmem _ hn)⟩
              · rw [if_neg h28] at h
                obtain ⟨ho, hb, ht⟩ := ih _ _ _ _ h
                exact ⟨ho, fun hn => hb (hmem _ hn), fun hn => ht (hmem _ hn)⟩
            · rw [if_neg hev] at h
              by_cases hx : (strFields l).getD 0 "" = "xprt:"
              · rw [if_pos hx] at h
                by_cases hlen2 : 2 ≤ (strFields l).length
                · rw [if_pos hlen2] at h
                  by_cases htcp : (strFields l).getD 1 "" ≠ "tcp"
                  · rw [if_pos htcp] at h
                    obtain ⟨ho, hb, ht⟩ := ih _ _ _ _ h
                    exact ⟨ho, fun hn => hb (hmem _ hn), fun hn => ht (hmem _ hn)⟩
                  · rw [if_neg htcp] at h
                    by_cases h15 : (strFields l).length ≠ 15
                    · rw [if_pos h15] at h
                      obtain ⟨ho, hb, ht⟩ := ih _ _ _ _ h
                      exact ⟨ho, fun hn => hb (hmem _ hn), fun hn => ht (hmem _ hn)⟩
                    · rw [if_neg h15] at h
                      obtain ⟨ho, hb, ht⟩ := ih _ _ _ _ h
                      refine ⟨ho, fun hn => hb (hmem _ hn), fun hn => ?_⟩
                      exact absurd ⟨hx, not_not.mp htcp, by omega⟩
                        (hn l (List.mem_cons_self _ _))
                · rw [if_neg hlen2] at h
                  exact absurd h (by simp)
              · rw [if_neg hx] at h
                obtain ⟨ho, hb, ht⟩ := ih _ _ _ _ h
                exact ⟨ho, fun hn => hb (hmem _ hn), fun hn => ht (hmem _ hn)⟩

theorem parseOperations_frame : ∀ (ls : List String) (st : Statistics),
    (parseOperations ls st).2.2.Age = st.Age ∧
    (parseOperations ls st).2.2.Byte = st.Byte ∧
    (parseOperations ls st).2.2.Event = st.Event ∧
    (parseOperations ls st).2.2.Transport = st.Transport := by
  intro ls
  induction ls with
  | nil => intro st; exact ⟨rfl, rfl, rfl, rfl⟩
  | cons l rest ih =>
    intro st
    simp only [parseOperations]
    split
    · exact ⟨rfl, rfl, rfl, rfl⟩
    · split
      · exact ih st
      · exact ih _

/-- Accumulated characterization of the operation map: `parseOperations`
performs exactly the inserts described by the specification-level
`opInserts`. -/
theorem parseOperations_Operation : ∀ (ls : List String) (st : Statistics)
    (m : List (String × OperationCounters)), st.Operation = some m →
    (parseOperations ls st).2.2.Operation = some (opInserts ls m) := by
  intro ls
  induction ls with
  | nil =>
    intro st m hm
    simpa [parseOperations, opInserts, opTableLines] using hm
  | cons l rest ih =>
    intro st m hm
    simp only [parseOperations]
    by_cases hb : (strFields l).length = 0 ∨ (strFields l).getD 0 "" = "device"
    · rw [if_pos hb]
      have hbb : isOpBoundary l = true := by
        unfold isOpBoundary; exact decide_eq_true hb
      simp only [opInserts, opTableLines, List.takeWhile_cons, hbb]
      simpa using hm
    · rw [if_neg hb]
      have hbb : isOpBoundary l = false := by
        unfold isOpBoundary; exact decide_eq_false hb
      by_cases h9 : (strFields l).length ≠ 9
      · rw [if_pos h9]
        have : opInserts (l :: rest) m = opInserts rest m := by
          simp only [opInserts, opTableLines, List.takeWhile_cons, hbb,
            Bool.not_false, if_pos, List.filterMap_cons]
          have : opEntryOfLine l = none := by
            unfold opEntryOfLine
            simp only [if_neg h9]
          rw [this]
        rw [this]
        exact ih st m hm
      · rw [if_neg h9]
        have hentry : opEntryOfLine l = some (trimSuffixColon ((strFields l).getD 0 ""),
            mkOperationCounters (makeUint64 ((strFields l).drop 1))) := by
          unfold opEntryOfLine
          simp only [if_pos (not_not.mp h9)]
        have : opInserts (l :: rest) m =
            opInserts rest (mapInsert m (trimSuffixColon ((strFields l).getD 0 ""))
              (mkOperationCounters (makeUint64 ((strFields l).drop 1)))) := by
          simp only [opInserts, opTableLines, List.takeWhile_cons, hbb,
            Bool.not_false, if_pos, List.filterMap_cons, hentry, List.foldl_cons]
        rw [this]
        exact ih _ _ (by rw [hm]; rfl)

/-! Lemmas about the association-list model of the Go operation map. -/

theorem bool_ne_true {b : Bool} (h : b = false) : ¬ b = true := by
  rw [h]
  exact Bool.false_ne_true

theorem mapLookup_map_replace (m : List (String × OperationCounters)) (k : String)
    (v : OperationCounters) (name : String) (hnk : name ≠ k) :
    mapLookup (m.map fun p => if p.1 == k then (k, v) else p) name = mapLookup m name := by
  have hkn : (k == name) = false := beq_eq_false_iff_ne.mpr fun he => hnk he.symm
  induction m with
  | nil => rfl
  | cons q m' ih =>
    simp only [List.map_cons]
    by_cases hqk : (q.1 == k) = true
    · have hqn : (q.1 == name) = false := by
        rw [eq_of_beq hqk]
        exact hkn
      rw [if_pos hqk]
      unfold mapLookup
      simp only [List.find?, hkn, hqn]
      exact ih
    · rw [if_neg hqk]
      unfold mapLookup
      by_cases hqn : (q.1 == name) = true
      · simp only [List.find?, hqn]
      · rw [Bool.not_eq_true] at hqn
        simp only [List.find?, hqn]
        exact ih

theorem mapInsert_lookup (m : List (String × OperationCounters)) (k : String)
    (v : OperationCounters) (name : String) :
    mapLookup (mapInsert m k v) name = if name = k then some v else mapLookup m name := by
  induction m with
  | nil =>
    by_cases h : name = k
    · subst h
      simp [mapInsert, mapLookup, List.find?]
    · have h' : (k == name) = false := beq_eq_false_iff_ne.mpr fun he => h he.symm
      simp only [mapInsert, List.any_nil, List.nil_append, if_neg h]
      unfold mapLookup
      simp only [List.find?, h']
  | cons q m' ih =>
    by_cases hqk : (q.1 == k) = true
    · have hany : ((q :: m').any fun p => p.1 == k) = true := by
        simp [List.any_cons, hqk]
      unfold mapInsert
      rw [if_pos hany]
      simp only [List.map_cons, if_pos hqk]
      by_cases hnk : name = k
      · subst hnk
        rw [if_pos rfl]
        simp [mapLookup, List.find?]
      · rw [if_neg hnk]
        have hkn : (k == name) = false := beq_eq_false_iff_ne.mpr fun he => hnk he.symm
        have hqn : (q.1 == name) = false := by
          rw [eq_of_beq hqk]
          exact hkn
        unfold mapLookup
        simp only [List.find?, hkn, hqn]
        exact mapLookup_map_replace m' k v name hnk
    · rw [Bool.not_eq_true] at hqk
      have hany : ((q :: m').any fun p => p.1 == k) = (m'.any fun p => p.1 == k) := by
        simp [List.any_cons, hqk]
      by_cases hany' : (m'.any fun p => p.1 == k) = true
      · unfold mapInsert
        rw [if_pos (hany.trans hany'), List.map_cons, if_neg (bool_ne_true hqk)]
        by_cases hqn : (q.1 == name) = true
        · have hnk : name ≠ k := by
            intro he
            have hq1 : q.1 = k := (eq_of_beq hqn).trans he
            rw [hq1] at hqk
            exact absurd hqk (by simp)
          rw [if_neg hnk]
          unfold mapLookup
          simp only [List.find?, hqn]
        · rw [Bool.not_eq_true] at hqn
          unfold mapLookup
          simp only [List.find?, hqn]
          have hstep : mapLookup (m'.map fun p => if p.1 == k then (k, v) else p) name =
              mapLookup (mapInsert m' k v) name := by
            unfold mapInsert
            rw [if_pos hany']
          exact hstep.trans ih
      · unfold mapInsert
        rw [if_neg (by rw [hany]; exact hany'), List.cons_append]
        by_cases hqn : (q.1 == name) = true
        · have hnk : name ≠ k := by
            intro he
            have hq1 : q.1 = k := (eq_of_beq hqn).trans he
            rw [hq1] at hqk
            exact absurd hqk (by simp)
          rw [if_neg hnk]
          unfold mapLookup
          simp only [List.find?, hqn]
        · rw [Bool.not_eq_true] at hqn
          unfold mapLookup
          simp only [List.find?, hqn]
          have hmi : m' ++ [(k, v)] = mapInsert m' k v := by
            unfold mapInsert
            rw [if_neg hany']
          rw [hmi]
          exact ih

theorem map_replace_keys (m : List (String × OperationCounters)) (k : String)
    (v : OperationCounters) :
    ((m.map fun p => if p.1 == k then (k, v) else p).map Prod.fst) = m.map Prod.fst := by
  induction m with
  | nil => rfl
  | cons q m' ih =>
    simp only [List.map_cons]
    by_cases hqk : (q.1 == k) = true
    · rw [if_pos hqk, ih]
      have : (k, v).1 = q.1 := (eq_of_beq hqk).symm
      rw [this]
    · rw [if_neg hqk, ih]

theorem mapInsert_nodup (m : List (String × OperationCounters)) (k : String)
    (v : OperationCounters) (h : (m.map Prod.fst).Nodup) :
    ((mapInsert m k v).map Prod.fst).Nodup := by
  unfold mapInsert
  by_cases hany : (m.any fun p => p.1 == k) = true
  · rw [if_pos hany, map_replace_keys]
    exact h
  · rw [if_neg hany, List.map_append]
    have hk : k ∉ m.map Prod.fst := by
      intro hmem
      rcases List.mem_map.mp hmem with ⟨p, hp, hpk⟩
      exact hany (List.any_eq_true.mpr ⟨p, hp, by simp [hpk]⟩)
    rw [List.nodup_append]
    refine ⟨h, by simp, ?_⟩
    intro a ha hb
    simp only [List.map_cons, List.map_nil, List.mem_singleton] at hb
    rw [hb] at ha
    exact hk ha

theorem foldl_mapInsert_nodup (es : List (String × OperationCounters))
    (m : List (String × OperationCounters)) (h : (m.map Prod.fst).Nodup) :
    ((es.foldl (fun acc p => mapInsert acc p.1 p.2) m).map Prod.fst).Nodup := by
  induction es generalizing m with
  | nil => exact h
  | cons e es ih =>
    simp only [List.foldl_cons]
    exact ih _ (mapInsert_nodup m e.1 e.2 h)

theorem foldl_mapInsert_lookup (es : List (String × OperationCounters))
    (m : List (String × OperationCounters)) (name : String) :
    mapLookup (es.foldl (fun acc p => mapInsert acc p.1 p.2) m) name =
      match (es.filter fun p => p.1 == name).getLast? with
      | some p => some p.2
      | none => mapLookup m name := by
  induction es generalizing m with
  | nil => rfl
  | cons e es ih =>
    simp only [List.foldl_cons]
    rw [ih]
    by_cases hfe : (e.1 == name) = true
    · rw [show ((e :: es).filter fun p => p.1 == name) = e :: (es.filter fun p => p.1 == name)
        from by simp only [List.filter_cons, hfe, if_true]]
      cases hlast : (es.filter fun p => p.1 == name).getLast? with
      | some p =>
        rcases hne : es.filter (fun p => p.1 == name) with _ | ⟨q, qs⟩
        · rw [hne] at hlast
          exact absurd hlast (by simp)
        · rw [hne] at hlast
          rw [hne, List.getLast?_cons_cons, hlast]
      | none =>
        have hnil : es.filter (fun p => p.1 == name) = [] :=
          List.getLast?_eq_none_iff.mp hlast
        rw [hnil]
        rw [mapInsert_lookup, if_pos (eq_of_beq hfe).symm]
        rfl
    · rw [Bool.not_eq_true] at hfe
      rw [show ((e :: es).filter fun p => p.1 == name) = es.filter fun p => p.1 == name
        from by simp only [List.filter_cons, hfe, Bool.false_eq_true, if_false]]
      cases hlast : (es.filter fun p => p.1 == name).getLast? with
      | some p => rfl
      | none =>
        rw [mapInsert_lookup,
          if_neg (fun he => by rw [← he] at hfe; exact absurd hfe (by simp))]

/-- Operation map of the statistics produced by `parseStatistics`: always
the allocated map, never nil. -/
theorem parseStatistics_Operation (readErr : Bool) (ls : List String)
    (r : List String) (st : Statistics)
    (h : parseStatistics readErr ls = .ok (some (r, st))) :
    ∃ om, st.Operation = some om := by
  unfold parseStatistics at h
  cases heq : parseStatisticsLoop ls NewStatistics with
  | error e => rw [heq] at h; exact absurd h (by simp)
  | ok trip =>
    obtain ⟨r1, b1, s1⟩ := trip
    rw [heq] at h
    dsimp only at h
    split at h
    · exact absurd h (by simp)
    · simp only [Except.ok.injEq, Option.some.injEq, Prod.mk.injEq] at h
      have h1 : s1.Operation = some [] :=
        (parseStatisticsLoop_effects ls NewStatistics r1 b1 s1 heq).1
      refine ⟨opInserts r1 [], ?_⟩
      rw [← h.2]
      exact parseOperations_Operation r1 s1 [] h1

/-- Every run of the top-level loop with a failing reader that returns
normally reports the stream error. -/
theorem ParseAux_err_surfaced : ∀ (fuel : Nat) (lines : List String)
    (acc ms : List NFSMount) (e : Bool),
    ParseAux true fuel lines acc = .ok ms e → e = true := by
  intro fuel
  induction fuel with
  | zero =>
    intro lines acc ms e h
    simp only [ParseAux, ParseResult.ok.injEq] at h
    exact h.2.symm
  | succ n ih =>
    intro lines acc ms e h
    cases lines with
    | nil =>
      simp only [ParseAux, ParseResult.ok.injEq] at h
      exact h.2.symm
    | cons l rest =>
      simp only [ParseAux] at h
      split at h
      · exact ih rest acc ms e h
      · split at h
        · split at h
          · exact ih rest acc ms e h
          · split at h
            · exact ih rest acc ms e h
            · split at h
              · exact ih rest acc ms e h
              · split at h
                · exact absurd h (by simp)
                · simp only [ParseResult.ok.injEq] at h
                  exact h.2.symm
                · exact ih _ _ ms e h
        · exact ih rest acc ms e h

/-- Every run of the top-level loop preserves and extends the
well-formedness of the accumulated mounts. -/
theorem ParseAux_wellFormed : ∀ (readErr : Bool) (fuel : Nat)
    (lines : List String) (acc ms : List NFSMount) (e : Bool),
    (∀ m ∈ acc, mountWellFormed m) →
    ParseAux readErr fuel lines acc = .ok ms e → ∀ m ∈ ms, mountWellFormed m := by
  intro readErr fuel
  induction fuel with
  | zero =>
    intro lines acc ms e hacc h
    simp only [ParseAux, ParseResult.ok.injEq] at h
    rw [← h.1]
    exact hacc
  | succ n ih =>
    intro lines acc ms e hacc h
    cases lines with
    | nil =>
      simp only [ParseAux, ParseResult.ok.injEq] at h
      rw [← h.1]
      exact hacc
    | cons l rest =>
      simp only [ParseAux] at h
      split at h
      · exact ih rest acc ms e hacc h
      · split at h
        · split at h
          · exact ih rest acc ms e hacc h
          · split at h
            · exact ih rest acc ms e hacc h
            · split at h
              · exact ih rest acc ms e hacc h
              · split at h
                · exact absurd h (by simp)
                · simp only [ParseResult.ok.injEq] at h
                  rw [← h.1]
                  intro m hm
                  exact absurd hm (by simp)
                · rename_i rest2 stats hps
                  refine ih _ _ ms e ?_ h
                  intro m hm
                  rcases List.mem_append.mp hm with hm1 | hm2
                  · exact hacc m hm1
                  · rw [List.mem_singleton.mp hm2]
                    refine ⟨⟨stats, rfl, parseStatistics_Operation _ _ _ _ hps⟩, ?_⟩
                    dsimp only
                    split
                    · exact Or.inr rfl
                    · exact Or.inl rfl
        · exact ih rest acc ms e hacc h

/-- Element-wise description of `makeUint64`. -/
theorem makeUint64_getD (ss : List String) (i : Nat) (h : i < ss.length) :
    (makeUint64 ss).getD i 0 = parseUint64 (ss.getD i "") := by
  induction ss generalizing i with
  | nil => exact absurd h (by simp)
  | cons a tl ih =>
    cases i with
    | zero => rfl
    | succ n =>
      simp only [makeUint64, List.map_cons, List.getD_cons_succ] at *
      exact ih n (by simpa using h)

/-! Claim theorems. -/

/-- C1: evaluation of the code on the failing input.  When a valid
statvers=1.1 header immediately follows another mount's per-operation
table with no blank line in between, the operations parser consumes the
header line past recognition, so the top-level scan never sees it and
`Parse` produces only the first mount's record, although the second line
satisfies the header predicate. -/
theorem opsParserConsumesHeader :
    Parse false consecutiveMounts =
      ParseResult.ok [⟨"192.168.1.1:/export", "/mnt",
        some { NewStatistics with Operation := some [("READ", ⟨1, 1, 0, 0, 0, 0, 0, 0⟩)] },
        3⟩] false ∧
    isMountHeader (strFields hdr2) := by
  exact ⟨by decide, by decide⟩

/-- C2 counterexample: a fully assembled mount record is discarded when
the read error surfaces while a later mount's statistics are being
parsed.  The first input yields the record; appending a second header and
a statistics line to the same stream with a failing reader yields no
records at all, only the error. -/
theorem assembledMountsDiscarded :
    Parse false [hdr1, "", ""] =
      ParseResult.ok [⟨"192.168.1.1:/export", "/mnt", some NewStatistics, 3⟩] false ∧
    Parse true [hdr1, "", "", hdr2, "age: 5"] = ParseResult.ok [] true := by
  exact ⟨by decide, by decide⟩

/-- C2 (amended): a stream read error is always surfaced to the caller,
but the records assembled before the error are returned alongside it only
when the error is first observed by the top-level scan; when it is
observed inside a mount's statistics block, `Parse` returns nil. -/
theorem streamErrorSurfaced (lines : List String) (ms : List NFSMount) (e : Bool)
    (h : Parse true lines = ParseResult.ok ms e) : e = true :=
  ParseAux_err_surfaced lines.length lines [] ms e h

theorem streamErrorSurfacedWitness :
    Parse true ["junk"] = ParseResult.ok [] true ∧ (true : Bool) = true :=
  ⟨by decide, streamErrorSurfaced ["junk"] [] true (by decide)⟩

/-- C3: evaluation of the code on the failing inputs.  A statistics-block
line consisting solely of the token `age:` (or solely of `xprt:`) makes
the parser read `fields[1]` of a one-token line, an out-of-range slice
access, instead of discarding the malformed line. -/
theorem bareAgeLineRuntimeError :
    Parse false [hdr1, "age:"] = ParseResult.fault RuntimeFault.indexOutOfRange ∧
    Parse false [hdr1, "xprt:"] = ParseResult.fault RuntimeFault.indexOutOfRange := by
  exact ⟨by decide, by decide⟩

/-- C4: evaluation of the code on the failing input.  The well-formed
consecutive-mounts input contains two lines satisfying the header
predicate, yet `Parse` produces a single mount record, because the second
header is consumed by the first mount's per-operation parser. -/
theorem headerCountMismatch :
    ((consecutiveMounts.map strFields).countP fun fs => decide (isMountHeader fs)) = 2 ∧
    (Parse false consecutiveMounts).mountCount = 1 := by
  exact ⟨by decide, by decide⟩

/-- C5: a single line produces a mount record exactly when it satisfies
the 9-token/`device`/`nfs`-or-`nfs4`/`statvers=1.1` predicate, and the
produced record carries version 4 for `nfs4` and 3 otherwise, device
token 1 and mountpoint token 4. -/
theorem headerRecognitionIff (l : String) :
    Parse false [l] =
      if isMountHeader (strFields l) then ParseResult.ok [headerMount (strFields l)] false
      else ParseResult.ok [] false := by
  show ParseAux false 1 [l] [] = _
  simp only [ParseAux]
  by_cases h9 : (strFields l).length = 9
  · have h0 : ¬ (strFields l).length = 0 := by omega
    rw [if_neg h0]
    by_cases hd : (strFields l).getD 0 "" = "device"
    · rw [if_pos hd, if_neg (by omega : ¬ (strFields l).length ≠ 9)]
      by_cases h7 : (strFields l).getD 7 "" = "nfs" ∨ (strFields l).getD 7 "" = "nfs4"
      · rw [if_neg (show ¬ ((strFields l).getD 7 "" ≠ "nfs" ∧
            (strFields l).getD 7 "" ≠ "nfs4") by tauto)]
        by_cases h8 : (strFields l).getD 8 "" = "statvers=1.1"
        · rw [if_neg (not_not.mpr h8)]
          rw [show parseStatistics false [] = Except.ok (some ([], NewStatistics)) from rfl]
          rw [if_pos (show isMountHeader (strFields l) from ⟨h9, hd, h7, h8⟩)]
          rfl
        · rw [if_pos h8, if_neg (show ¬ isMountHeader (strFields l) from
            fun hm => h8 hm.2.2.2)]
      · rw [if_pos (show (strFields l).getD 7 "" ≠ "nfs" ∧
            (strFields l).getD 7 "" ≠ "nfs4" by tauto)]
        rw [if_neg (show ¬ isMountHeader (strFields l) from fun hm => h7 hm.2.2.1)]
    · rw [if_neg hd, if_neg (show ¬ isMountHeader (strFields l) from fun hm => hd hm.2.1)]
  · rw [if_neg (show ¬ isMountHeader (strFields l) from fun hm => h9 hm.1)]
    by_cases h0 : (strFields l).length = 0
    · rw [if_pos h0]
    · rw [if_neg h0]
      by_cases hd : (strFields l).getD 0 "" = "device"
      · rw [if_pos hd, if_pos (show (strFields l).length ≠ 9 from h9)]
      · rw [if_neg hd]

/-- C6 counterexample: the decimal token 18446744073709551616 (that is,
2^64, not representable in 64 bits) does not yield the field value 0 the
claim demands: Go's ParseUint returns the maximum uint64 on range
overflow, and the discarded-error idiom keeps that value. -/
theorem overflowTokenNotZero :
    Parse false [hdr1, "age: 18446744073709551616"] =
      ParseResult.ok [⟨"192.168.1.1:/export", "/mnt",
        some { NewStatistics with Age := 18446744073709551615 }, 3⟩] false ∧
    2 ^ 64 ≤ digitsToNat "18446744073709551616" ∧
    (18446744073709551615 : Nat) ≠ 0 := by
  exact ⟨by decide, by decide, by decide⟩

/-- C6 (amended): every positional numeric token is converted with Go
ParseUint(·, 10, 64) semantics — the converted list keeps the length of
the token list, a syntactically invalid token yields 0, a valid decimal
yields its value capped at the maximum uint64 (so an out-of-range decimal
yields 2^64 - 1, not 0), and the result is always a 64-bit value; a
conversion failure never aborts the conversion of the line. -/
theorem numericConversionSpec (ss : List String) (i : Nat) (h : i < ss.length) :
    (makeUint64 ss).length = ss.length ∧
    (isUintToken (ss.getD i "") = false → (makeUint64 ss).getD i 0 = 0) ∧
    (isUintToken (ss.getD i "") = true →
      (makeUint64 ss).getD i 0 = min (digitsToNat (ss.getD i "")) (2 ^ 64 - 1)) ∧
    (makeUint64 ss).getD i 0 < 2 ^ 64 := by
  have hg := makeUint64_getD ss i h
  refine ⟨by simp [makeUint64], fun hf => ?_, fun ht => ?_, ?_⟩
  · rw [hg]
    unfold parseUint64
    rw [if_neg (bool_ne_true hf)]
  · rw [hg]
    unfold parseUint64
    rw [if_pos ht]
  · rw [hg]
    unfold parseUint64
    split
    · have hmin : min (digitsToNat (ss.getD i "")) (2 ^ 64 - 1) ≤ 2 ^ 64 - 1 :=
        Nat.min_le_right _ _
      have hpow : (0 : Nat) < 2 ^ 64 := Nat.pos_pow_of_pos 64 (by decide)
      omega
    · exact Nat.pos_pow_of_pos 64 (by decide)

theorem numericConversionSpecWitness :
    (makeUint64 ["abc", "5"]).getD 0 0 = 0 :=
  (numericConversionSpec ["abc", "5"] 0 (by decide)).2.1 (by decide)

/-- C7: within one per-operation table the stored counters for a name are
exactly those of the last valid 9-token operation line carrying that name
(later lines overwrite earlier ones), and the keys of the resulting
operation map are unique. -/
theorem lastOpWinsAndKeysNodup (lines : List String) (name : String) :
    ((parseOperations lines NewStatistics).2.2.Operation.map fun m => mapLookup m name)
      = some (lastOpEntry lines name) ∧
    (((parseOperations lines NewStatistics).2.2.Operation.getD []).map Prod.fst).Nodup := by
  have hop := parseOperations_Operation lines NewStatistics [] rfl
  constructor
  · rw [hop, Option.map_some']
    rw [show opInserts lines [] = (((opTableLines lines).filterMap opEntryOfLine).foldl
        (fun acc p => mapInsert acc p.1 p.2) []) from rfl]
    rw [foldl_mapInsert_lookup]
    unfold lastOpEntry
    cases hlast : (((opTableLines lines).filterMap opEntryOfLine).filter
        fun p => p.1 == name).getLast? with
    | some p => rfl
    | none => rfl
  · rw [hop, Option.getD_some]
    exact foldl_mapInsert_nodup _ _ (by simp)

/-- C8: a `bytes:` line with fewer than 9 tokens is skipped — parsing the
block behaves exactly as if the line were absent — and when no other line
of the block is a well-formed `bytes:` line, the resulting statistics keep
the all-zero byte counters. -/
theorem shortBytesLineIgnored (bl : String) (rest : List String) (readErr : Bool)
    (h1 : (strFields bl).getD 0 "" = "bytes:") (h2 : (strFields bl).length < 9)
    (h3 : ∀ l ∈ rest, ¬ ((strFields l).getD 0 "" = "bytes:" ∧ (strFields l).length = 9)) :
    parseStatistics readErr (bl :: rest) = parseStatistics readErr rest ∧
    ∀ r st, parseStatistics readErr rest = Except.ok (some (r, st)) →
      st.Byte = ByteCounters.zero := by
  have h0 : ¬ (strFields bl).length = 0 :=
    length_ne_zero_of_getD _ _ h1 (by decide)
  have hskip : ∀ st0, parseStatisticsLoop (bl :: rest) st0 = parseStatisticsLoop rest st0 := by
    intro st0
    simp only [parseStatisticsLoop]
    rw [if_neg h0, if_neg (by rw [h1]; decide), if_neg (by rw [h1]; decide), if_pos h1,
        if_pos (by omega : (strFields bl).length ≠ 9)]
  constructor
  · unfold parseStatistics
    rw [hskip]
  · intro r st hok
    unfold parseStatistics at hok
    cases heq : parseStatisticsLoop rest NewStatistics with
    | error e => rw [heq] at hok; exact absurd hok (by simp)
    | ok trip =>
      obtain ⟨r1, b1, s1⟩ := trip
      rw [heq] at hok
      dsimp only at hok
      split at hok
      · exact absurd hok (by simp)
      · simp only [Except.ok.injEq, Option.some.injEq, Prod.mk.injEq] at hok
        have hb1 : s1.Byte = NewStatistics.Byte :=
          (parseStatisticsLoop_effects rest NewStatistics r1 b1 s1 heq).2.1 h3
        have hb2 : (parseOperations r1 s1).2.2.Byte = s1.Byte :=
          (parseOperations_frame r1 s1).2.1
        rw [← hok.2, hb2, hb1]
        rfl

theorem shortBytesLineIgnoredWitness :
    parseStatistics false ["bytes: 1 2 3", "age: 7"] = parseStatistics false ["age: 7"] ∧
    ({ NewStatistics with Age := 7 } : Statistics).Byte = ByteCounters.zero := by
  have h := shortBytesLineIgnored "bytes: 1 2 3" ["age: 7"] false
    (by decide) (by decide) (by decide)
  exact ⟨h.1, h.2 [] { NewStatistics with Age := 7 } (by decide)⟩

/-- C9: an `xprt:` line whose second token is not `tcp` is skipped —
parsing the block behaves exactly as if the line were absent — and when no
other line of the block is a well-formed tcp `xprt:` line, the resulting
statistics keep the all-zero transport counters. -/
theorem nonTcpXprtIgnored (xl : String) (rest : List String) (readErr : Bool)
    (h1 : (strFields xl).getD 0 "" = "xprt:") (h2 : 2 ≤ (strFields xl).length)
    (h3 : (strFields xl).getD 1 "" ≠ "tcp")
    (h4 : ∀ l ∈ rest, ¬ ((strFields l).getD 0 "" = "xprt:" ∧
        (strFields l).getD 1 "" = "tcp" ∧ (strFields l).length = 15)) :
    parseStatistics readErr (xl :: rest) = parseStatistics readErr rest ∧
    ∀ r st, parseStatistics readErr rest = Except.ok (some (r, st)) →
      st.Transport = TransportCounters.zero := by
  have h0 : ¬ (strFields xl).length = 0 :=
    length_ne_zero_of_getD _ _ h1 (by decide)
  have hskip : ∀ st0, parseStatisticsLoop (xl :: rest) st0 = parseStatisticsLoop rest st0 := by
    intro st0
    simp only [parseStatisticsLoop]
    rw [if_neg h0, if_neg (by rw [h1]; decide), if_neg (by rw [h1]; decide),
        if_neg (by rw [h1]; decide), if_neg (by rw [h1]; decide), if_pos h1,
        if_pos h2, if_pos h3]
  constructor
  · unfold parseStatistics
    rw [hskip]
  · intro r st hok
    unfold parseStatistics at hok
    cases heq : parseStatisticsLoop rest NewStatistics with
    | error e => rw [heq] at hok; exact absurd hok (by simp)
    | ok trip =>
      obtain ⟨r1, b1, s1⟩ := trip
      rw [heq] at hok
      dsimp only at hok
      split at hok
      · exact absurd hok (by simp)
      · simp only [Except.ok.injEq, Option.some.injEq, Prod.mk.injEq] at hok
        have ht1 : s1.Transport = NewStatistics.Transport :=
          (parseStatisticsLoop_effects rest NewStatistics r1 b1 s1 heq).2.2 h4
        have ht2 : (parseOperations r1 s1).2.2.Transport = s1.Transport :=
          (parseOperations_frame r1 s1).2.2.2
        rw [← hok.2, ht2, ht1]
        rfl

theorem nonTcpXprtIgnoredWitness :
    parseStatistics false ["xprt: udp 1 2 3", "age: 7"] = parseStatistics false ["age: 7"] ∧
    ({ NewStatistics with Age := 7 } : Statistics).Transport = TransportCounters.zero := by
  have h := nonTcpXprtIgnored "xprt: udp 1 2 3" ["age: 7"] false
    (by decide) (by decide) (by decide) (by decide)
  exact ⟨h.1, h.2 [] { NewStatistics with Age := 7 } (by decide)⟩

/-- C10: every mount record returned by `Parse` carries a non-nil
statistics record whose operation map is allocated, and a version equal
to 3 or 4. -/
theorem mountInvariants (readErr : Bool) (lines : List String)
    (ms : List NFSMount) (e : Bool) (h : Parse readErr lines = ParseResult.ok ms e) :
    ∀ m ∈ ms, mountWellFormed m :=
  ParseAux_wellFormed readErr lines.length lines [] ms e (by simp) h

theorem mountInvariantsWitness :
    Parse false [hdr1] =
      ParseResult.ok [⟨"192.168.1.1:/export", "/mnt", some NewStatistics, 3⟩] false ∧
    mountWellFormed ⟨"192.168.1.1:/export", "/mnt", some NewStatistics, 3⟩ := by
  refine ⟨by decide, ?_⟩
  exact mountInvariants false [hdr1] _ false (by decide) _ (List.mem_singleton.mpr rfl)

end Nfsstats
